import Mathlib

/-!
# igniter-shell-go: the process-supervision harness of `shell/run.go`

A shallow embedding of `shell/run.go` and of the few standard-library
functions it calls (`syscall.WaitStatus`, `exec.Cmd.Wait`, `bufio.Reader.ReadString`,
`strings.TrimSpace`, `io.WriteString`), followed by theorems about them.

Go strings are byte sequences: a string is a `List Nat` whose elements are bytes.
Go `error` values are the inductive `GoError`; the nil error is `none`.
-/

namespace Shell

/-! ## Errors and strings -/

/-- Go strings and byte streams: a list of bytes. -/
abbrev GoString := List Nat

/-- The `error` values the harness can meet. `EOF` is the sentinel `io.EOF`;
`ExitError sys` is an `*exec.ExitError`, `sys` being the `syscall.WaitStatus` its
`Sys()` returns (`none` when `Sys()` is not a `syscall.WaitStatus`); `EPIPE` is the
`*os.PathError` wrapping `syscall.EPIPE` that a write to a pipe without reader returns;
`ErrClosed` is the `*os.PathError` wrapping `os.ErrClosed` of a read or write on a closed file;
`other` is any other error, told apart by its message. -/
inductive GoError where
  | EOF : GoError
  | ExitError (sys : Option Nat) : GoError
  | EPIPE : GoError
  | ErrClosed : GoError
  | other (msg : String) : GoError
  deriving DecidableEq, Repr

/-! ## Exit-status decoding (`syscall.WaitStatus` on Linux, `exec.Cmd.Wait`, `waitCommand`) -/

/-- The method `syscall.WaitStatus.Exited` (Linux): `w&mask == exited`, with `mask = 0x7F`
and `exited = 0`. The status is a `uint32`. -/
def Exited (w : Nat) : Bool := (w % 2 ^ 32) % 128 == 0

/-- The method `syscall.WaitStatus.Signaled` (Linux): `w&mask != stopped && w&mask != exited`,
with `stopped = 0x7F`. -/
def Signaled (w : Nat) : Bool := (w % 2 ^ 32) % 128 != 127 && (w % 2 ^ 32) % 128 != 0

/-- The method `syscall.WaitStatus.ExitStatus` (Linux): `-1` unless the status is an exit,
otherwise `int(w>>shift) & 0xFF` with `shift = 8`. -/
def ExitStatus (w : Nat) : Int :=
  if !Exited w then -1 else (((w % 2 ^ 32) / 256) % 256 : Nat)

/-- The wait status the kernel reports for a child that called `exit(n)`:
`(n & 0xff) << 8`. -/
def exitedStatus (n : Nat) : Nat := (n % 256) * 256

/-- The wait status the kernel reports for a child killed by signal `s` (`1 ≤ s < 127`),
with the core-dump flag `0x80` set or not. -/
def signaledStatus (s : Nat) (core : Bool) : Nat := s + (if core then 128 else 0)

/-- The result of `exec.Cmd.Wait` once `Process.Wait` has reaped the child with wait
status `w`: nil when `ProcessState.Success()` (exit status 0), an `*exec.ExitError`
carrying the state otherwise. -/
def cmdWait (w : Nat) : Option GoError :=
  if ExitStatus w = 0 then none else some (GoError.ExitError (some w))

/-- The function `waitCommand` of `run.go`, as a function of what `cmd.Wait()` returned.
The results are the named results `(exit, err)`; `exit` keeps its zero value unless the
wait status is decoded. -/
def waitCommand (waitResult : Option GoError) : Int × Option GoError :=
  let err := waitResult
  match err with
  | some (GoError.ExitError (some status)) =>
      -- err = nil; exit = status.ExitStatus(); return
      (ExitStatus status, none)
  | _ =>
      -- if err != nil { return }; return
      if err.isSome then (0, err) else (0, err)

/-- Whether an error is an `*exec.ExitError` whose `Sys()` is a `syscall.WaitStatus`. -/
def carriesWaitStatus : GoError → Bool
  | GoError.ExitError (some _) => true
  | _ => false

/-! ## UTF-8 decoding and `strings.TrimSpace` (packages `unicode/utf8`, `unicode`, `strings`) -/

/-- The constant `utf8.RuneError`, U+FFFD. -/
def RuneError : Nat := 0xFFFD

/-- The constant `utf8.RuneSelf`: bytes below it are single-byte runes. -/
def RuneSelf : Nat := 0x80

/-- The table `first` of package `utf8`: information about the first byte of an encoding.
`as = 0xF0` for ASCII, `xx = 0xF1` for an invalid first byte, otherwise the size in the low
bits and the index into `acceptRanges` in the high bits. -/
def first (s0 : Nat) : Nat :=
  if s0 < 0x80 then 0xF0
  else if s0 < 0xC2 then 0xF1
  else if s0 < 0xE0 then 0x02
  else if s0 = 0xE0 then 0x13
  else if s0 < 0xED then 0x03
  else if s0 = 0xED then 0x23
  else if s0 < 0xF0 then 0x03
  else if s0 = 0xF0 then 0x34
  else if s0 < 0xF4 then 0x04
  else if s0 = 0xF4 then 0x44
  else 0xF1

/-- The table `acceptRanges` of package `utf8`: the range `(lo, hi)` allowed for the second
byte; the entries that the Go array leaves unset are zero. -/
def acceptRanges (i : Nat) : Nat × Nat :=
  match i with
  | 0 => (0x80, 0xBF)
  | 1 => (0xA0, 0xBF)
  | 2 => (0x80, 0x9F)
  | 3 => (0x90, 0xBF)
  | 4 => (0x80, 0x8F)
  | _ => (0, 0)

/-- The function `utf8.DecodeRuneInString`: the first rune of `s` and its width in bytes;
`(RuneError, 0)` for the empty string and `(RuneError, 1)` for an invalid encoding. The
masks and shifts of the Go code are written as remainders and products. -/
def DecodeRuneInString (s : GoString) : Nat × Nat :=
  let n := s.length
  if n < 1 then (RuneError, 0) else
  let s0 := s.getD 0 0
  let x := first s0
  if x ≥ 0xF0 then (if x % 2 = 0 then s0 else RuneError, 1) else
  let sz := x % 8
  let accept := acceptRanges (x / 16)
  if n < sz then (RuneError, 1) else
  let s1 := s.getD 1 0
  if s1 < accept.1 ∨ accept.2 < s1 then (RuneError, 1) else
  if sz ≤ 2 then ((s0 % 32) * 64 + s1 % 64, 2) else
  let s2 := s.getD 2 0
  if s2 < 0x80 ∨ 0xBF < s2 then (RuneError, 1) else
  if sz ≤ 3 then ((s0 % 16) * 4096 + (s1 % 64) * 64 + s2 % 64, 3) else
  let s3 := s.getD 3 0
  if s3 < 0x80 ∨ 0xBF < s3 then (RuneError, 1) else
  ((s0 % 8) * 262144 + (s1 % 64) * 4096 + (s2 % 64) * 64 + s3 % 64, 4)

/-- The function `utf8.RuneStart`: `b&0xC0 != 0x80`, the byte is not a continuation byte. -/
def RuneStart (b : Nat) : Bool := !(0x80 ≤ b && b < 0xC0)

/-- The backward loop of `utf8.DecodeLastRuneInString`,
`for start--; start >= lim; start-- { if RuneStart(s[start]) { break } }`, entered after the
first `start--`; it runs at most `UTFMax` times, which bounds the recursion. -/
def decodeLastStart (s : GoString) (lim : Int) : Nat → Int → Int
  | 0, start => start
  | k + 1, start =>
    if start ≥ lim then
      if RuneStart (s.getD start.toNat 0) then start
      else decodeLastStart s lim k (start - 1)
    else start

/-- The function `utf8.DecodeLastRuneInString`: the last rune of `s` and its width. -/
def DecodeLastRuneInString (s : GoString) : Nat × Nat :=
  let stop := s.length
  if stop = 0 then (RuneError, 0) else
  let r := s.getD (stop - 1) 0
  if r < RuneSelf then (r, 1) else
  let lim : Int := if (stop : Int) - 4 < 0 then 0 else (stop : Int) - 4
  let start := decodeLastStart s lim 4 ((stop : Int) - 1 - 1)
  let start := if start < 0 then 0 else start
  let rs := DecodeRuneInString ((s.drop start.toNat).take (stop - start.toNat))
  if start.toNat + rs.2 ≠ stop then (RuneError, 1) else rs

/-- The function `unicode.IsSpace`: the Latin-1 spaces, and beyond Latin-1 the code points
of the table `White_Space`. -/
def IsSpace (r : Nat) : Bool :=
  if r ≤ 0xFF then
    r = 0x09 || r = 0x0A || r = 0x0B || r = 0x0C || r = 0x0D || r = 0x20 || r = 0x85 || r = 0xA0
  else
    r = 0x1680 || (0x2000 ≤ r && r ≤ 0x200A) || r = 0x2028 || r = 0x2029 || r = 0x202F
      || r = 0x205F || r = 0x3000

/-- The loop `for i, r := range s` of `strings.indexFunc`, at byte offset `i`: the offset of
the first rune with `f(r) == truth`. Every round advances by the width of a rune, so
`len(s)` rounds are enough; `none` stands for the result `-1`. -/
def indexFuncLoop (f : Nat → Bool) (truth : Bool) : Nat → Nat → GoString → Option Nat
  | 0, _, _ => none
  | fuel + 1, i, s =>
    if s.length ≤ i then none else
    let rw := DecodeRuneInString (s.drop i)
    if f rw.1 == truth then some i else indexFuncLoop f truth fuel (i + rw.2) s

/-- The function `strings.indexFunc`. -/
def indexFunc (s : GoString) (f : Nat → Bool) (truth : Bool) : Option Nat :=
  indexFuncLoop f truth s.length 0 s

/-- The loop `for i := len(s); i > 0; ` of `strings.lastIndexFunc`: the offset of the last
rune with `f(r) == truth`; `none` stands for `-1`. -/
def lastIndexFuncLoop (f : Nat → Bool) (truth : Bool) : Nat → Nat → GoString → Option Nat
  | 0, _, _ => none
  | fuel + 1, i, s =>
    if i = 0 then none else
    let rs := DecodeLastRuneInString (s.take i)
    let i := i - rs.2
    if f rs.1 == truth then some i else lastIndexFuncLoop f truth fuel i s

/-- The function `strings.lastIndexFunc`. -/
def lastIndexFunc (s : GoString) (f : Nat → Bool) (truth : Bool) : Option Nat :=
  lastIndexFuncLoop f truth s.length s.length s

/-- The function `strings.TrimLeftFunc`. -/
def TrimLeftFunc (s : GoString) (f : Nat → Bool) : GoString :=
  match indexFunc s f false with
  | none => []
  | some i => s.drop i

/-- The function `strings.TrimRightFunc`. -/
def TrimRightFunc (s : GoString) (f : Nat → Bool) : GoString :=
  match lastIndexFunc s f false with
  | some i =>
    if s.getD i 0 ≥ RuneSelf then s.take (i + (DecodeRuneInString (s.drop i)).2)
    else s.take (i + 1)
  | none => s.take 0

/-- The function `strings.TrimFunc`. -/
def TrimFunc (s : GoString) (f : Nat → Bool) : GoString :=
  TrimRightFunc (TrimLeftFunc s f) f

/-- The table `asciiSpace` of package `strings`. -/
def asciiSpace (c : Nat) : Nat :=
  if c = 0x09 ∨ c = 0x0A ∨ c = 0x0B ∨ c = 0x0C ∨ c = 0x0D ∨ c = 0x20 then 1 else 0

/-- The second loop of `strings.TrimSpace`, `for ; stop > start; stop--`, on
`t = s[start:]` with `stop` counted from `start`. -/
def trimSpaceStop (t : GoString) : Nat → GoString
  | 0 => t.take 0
  | stop + 1 =>
    let c := t.getD stop 0
    if c ≥ RuneSelf then TrimRightFunc (t.take (stop + 1)) IsSpace
    else if asciiSpace c = 0 then t.take (stop + 1)
    else trimSpaceStop t stop

/-- The function `strings.TrimSpace`; the recursion is the first loop, on `s[start:]`. -/
def TrimSpace : GoString → GoString
  | [] => trimSpaceStop [] 0
  | c :: rest =>
    if c ≥ RuneSelf then TrimFunc (c :: rest) IsSpace
    else if asciiSpace c = 0 then trimSpaceStop (c :: rest) (rest.length + 1)
    else TrimSpace rest

/-- A line is whitespace-only when no rune of it is a non-space: `indexFunc` finds no rune
`r` with `IsSpace(r) == false`. -/
def whitespaceOnly (l : GoString) : Prop := indexFunc l IsSpace false = none

instance (l : GoString) : Decidable (whitespaceOnly l) := by
  unfold whitespaceOnly; infer_instance

/-! ## The Line Framer (`bufio.Reader.ReadString`, `readLines`) -/

/-- A `bufio.Reader` over a byte source: the bytes it will still deliver and the error
the source returns once they are exhausted (`io.EOF` at a normal end of stream). -/
structure Reader where
  data : GoString
  err : GoError
  deriving DecidableEq, Repr

/-- The bytes of `s` up to and including the first `delim`, and the bytes after it; `none`
when `s` holds no `delim`. -/
def splitDelim (delim : Nat) : GoString → Option (GoString × GoString)
  | [] => none
  | c :: rest =>
    if c = delim then some ([c], rest)
    else match splitDelim delim rest with
      | some (l, r) => some (c :: l, r)
      | none => none

/-- The method `bufio.Reader.ReadString`: the data up to and including the first `delim`;
when the source ends before a `delim`, the data read so far and the error of the source. -/
def ReadString (r : Reader) (delim : Nat) : GoString × Option GoError × Reader :=
  match splitDelim delim r.data with
  | some (line, rest) => (line, none, { r with data := rest })
  | none => (r.data, some r.err, { r with data := [] })

/-- How a goroutine stands: still in its loop, returned, or stopped by `panic(err)`. -/
inductive Exit where
  | running : Exit
  | returned : Exit
  | panicked (err : GoError) : Exit
  deriving DecidableEq, Repr

/-- What `readLines` did: the lines sent on the channel `lines`, in order, and how it
ended. A send is recorded when it is made: the channel `outputLines` is never closed and
its receiver is assumed to take every line eventually. -/
structure Framed where
  sent : List GoString
  exit : Exit
  deriving DecidableEq, Repr

/-- The loop of `readLines`. Every round that goes on consumes a `'\n'` from the reader,
so the first argument bounds the number of rounds. -/
def readLinesLoop : Nat → Reader → Framed
  | 0, _ => ⟨[], Exit.running⟩
  | fuel + 1, r =>
    match ReadString r 0x0A with
    | (line, err, r1) =>
      if err = some GoError.EOF then ⟨[], Exit.returned⟩
      else match err with
        | some e => ⟨[], Exit.panicked e⟩
        | none =>
          let line := TrimSpace line
          if line ≠ [] then
            let rest := readLinesLoop fuel r1
            ⟨line :: rest.sent, rest.exit⟩
          else readLinesLoop fuel r1

/-- The function `readLines` of `run.go` on the reader `bufferedReader`. -/
def readLines (bufferedReader : Reader) : Framed :=
  readLinesLoop (bufferedReader.data.length + 1) bufferedReader

/-- Following the words of the specification for the Line Framer: the stream split at each
`'\n'` (the segments without the terminator), every segment trimmed with `TrimSpace`, and
the segments that become empty discarded. -/
def framedLines (stream : GoString) : List GoString :=
  ((stream.splitOn 0x0A).map TrimSpace).filter (fun l => l ≠ [])

/-! ## The Line Writer and the Automaton Bridge (`io.WriteString`, `writeLines`,
`passStateChanges`) -/

/-- Modelled from the spec: the type `statemachine.StateChange`, declared in the package
`statemachine`, of which `run.go` reads the field `Command`; a State-Change Event carries a
Command string destined for the input of the child. -/
structure StateChange where
  Command : GoString
  deriving DecidableEq, Repr

/-- The outcome of one `Write` on the sink: everything written and a nil error, or `n`
bytes written and the error `err`. By the contract of `io.Writer` a short write comes
with a non-nil error. -/
inductive WriteResult where
  | ok : WriteResult
  | fail (n : Nat) (err : GoError) : WriteResult
  deriving DecidableEq, Repr

/-- The sink behind the `io.Writer`: the bytes it has taken and the number of `Write`
calls made. -/
structure Sink where
  written : GoString
  calls : Nat
  deriving DecidableEq, Repr

/-- The function `io.WriteString(writer, s)`: one `Write` call; `behaviour k` is the outcome of
the `k`-th call on this writer. -/
def WriteString (behaviour : Nat → WriteResult) (w : Sink) (s : GoString) :
    Sink × Option GoError :=
  match behaviour w.calls with
  | WriteResult.ok => (⟨w.written ++ s, w.calls + 1⟩, none)
  | WriteResult.fail n err => (⟨w.written ++ s.take n, w.calls + 1⟩, some err)

/-- The loop `for line = range lines` of `writeLines`, on the lines the channel delivers
until it is closed. -/
def writeLinesLoop (behaviour : Nat → WriteResult) : Sink → List GoString → Sink × Exit
  | w, [] => (w, Exit.returned)
  | w, line :: rest =>
    match WriteString behaviour w (line ++ [0x0A]) with
    | (w1, err) =>
      if err = some GoError.EOF then (w1, Exit.returned)
      else match err with
        | some e => (w1, Exit.panicked e)
        | none => writeLinesLoop behaviour w1 rest

/-- The function `writeLines` of `run.go` on a fresh sink; `lines` is what the channel
delivers, in order, before it is closed. -/
def writeLines (behaviour : Nat → WriteResult) (lines : List GoString) : Sink × Exit :=
  writeLinesLoop behaviour ⟨[], 0⟩ lines

/-- The function `passStateChanges` of `run.go`: the values it sends on `inputLines`, in
order, for the events the channel `stateChanges` delivers before it is closed. -/
def passStateChanges : List StateChange → List GoString
  | [] => []
  | stateChange :: rest => stateChange.Command :: passStateChanges rest

/-! ## The Signal Relay (`passSignals`) -/

/-- What `passSignals` did: the signals it handed to `process.Signal`, in order, and how
it ended. -/
structure Relayed where
  delivered : List Nat
  exit : Exit
  deriving DecidableEq, Repr

/-- The loop `for signal = range signals` of `passSignals`; `Signal k sig` is the error that
the `k`-th call `process.Signal(sig)` returns. -/
def passSignalsLoop (Signal : Nat → Nat → Option GoError) : Nat → List Nat → Relayed
  | _, [] => ⟨[], Exit.returned⟩
  | k, signal :: rest =>
    match Signal k signal with
    | some _ => ⟨[signal], Exit.returned⟩
    | none =>
      let r := passSignalsLoop Signal (k + 1) rest
      ⟨signal :: r.delivered, r.exit⟩

/-- The function `passSignals` of `run.go`; `signals` is what the channel delivers, in
order, before it is closed. -/
def passSignals (Signal : Nat → Nat → Option GoError) (signals : List Nat) : Relayed :=
  passSignalsLoop Signal 0 signals

/-! ## The launchers and the Supervisor (`runCommand`, `runCommandPTY`,
`RunWithStateMachine`) -/

/-- The four buses of `RunWithStateMachine`. -/
inductive Bus where
  | outputLines | inputLines | stateChanges | signals
  deriving DecidableEq, Repr

/-- The goroutines that `run.go` starts with a `go` statement. -/
inductive Goroutine where
  | passStateChanges | statemachineRun
  | readLinesStdout | readLinesStderr | readLinesPty
  | writeLines
  | copyStdout | copyStderr | copyStdin
  | passSignals
  deriving DecidableEq, Repr

/-- The closers and readers that the launchers release in deferred calls. -/
inductive Resource where
  | stdout | stderr | stdin
  | stdoutPipeReader | stdoutPipeWriter | stderrPipeReader | stderrPipeWriter
  | stdoutReader | stderrReader
  | pipeReader | pipeWriter | ptyStream | ptyReader
  deriving DecidableEq, Repr

/-- The effects of the launchers and of the Supervisor, in the order they happen. -/
inductive Call where
  | makeChan (b : Bus) (capacity : Nat) : Call
  | closeChan (b : Bus) : Call
  | signalNotify : Call
  | signalStop : Call
  | go (g : Goroutine) : Call
  | StdoutPipe : Call
  | StderrPipe : Call
  | StdinPipe : Call
  | ioPipe : Call
  | cmdStart : Call
  | ptyStart : Call
  | waitCommand : Call
  | release (r : Resource) : Call
  deriving DecidableEq, Repr

/-- What a run meets: the errors of the three pipe allocations, of `cmd.Start` (or
`pty.Start`) and the result of `cmd.Wait`, answered by the operating system; and what the
goroutines that the launcher has started do before the launcher hands back its results.
`stdoutFramer` is the reader that the goroutine `readLines(stdoutReader)` has read to its
end, `none` when that goroutine is still reading, or has not run yet, at that point;
`stderrFramer` and `ptyFramer` are the same for `readLines(stderrReader)` and
`readLines(ptyReader)`. A pipe that a failed `cmd.Start`, `cmd.Wait` or a deferred `Close`
closes under its reader ends with `ErrClosed`, and a pty whose child has exited with an
input/output error, not with `io.EOF`. `writerSink` and `writerLines` are the behaviour of the
sink and the lines that the goroutine `writeLines` has received. -/
structure Env where
  stdoutPipe : Option GoError
  stderrPipe : Option GoError
  stdinPipe : Option GoError
  start : Option GoError
  wait : Option GoError
  stdoutFramer : Option Reader
  stderrFramer : Option Reader
  ptyFramer : Option Reader
  writerSink : Nat → WriteResult
  writerLines : List GoString

/-- How a launcher ends: it hands back its results `(exit, err)`, or goroutines it has
started panic before it does and the runtime ends the whole process; `panics` are the
values these goroutines panic with, the first one raised being the one that ends the
process. -/
inductive Outcome where
  | returned (exit : Int) (err : Option GoError) : Outcome
  | crashed (panics : List GoError) : Outcome
  deriving DecidableEq, Repr

/-- How a launcher ends and the calls on its path, in order; when the process is ended by
a panic the launcher has made a part of them only. -/
structure Launched where
  outcome : Outcome
  calls : List Call
  deriving DecidableEq, Repr

/-- The panic of a Line Framer goroutine, if it has read its reader to the end and
`readLines` ends in `panic(err)`. -/
def framerPanic : Option Reader → List GoError
  | none => []
  | some bufferedReader =>
    match (readLines bufferedReader).exit with
    | Exit.panicked e => [e]
    | _ => []

/-- The panic of the Line Writer goroutine, if `writeLines` ends in `panic(err)` on the
lines it has received. -/
def writerPanic (env : Env) : List GoError :=
  match (writeLines env.writerSink env.writerLines).2 with
  | Exit.panicked e => [e]
  | _ => []

/-- The end of a launcher that has started goroutines: its results reach the caller when
none of the goroutines has panicked. -/
def Outcome.finish (panics : List GoError) (exit : Int) (err : Option GoError) : Outcome :=
  match panics with
  | [] => Outcome.returned exit err
  | _ :: _ => Outcome.crashed panics

/-- The function `runCommand` of `run.go`. The deferred calls run when the function
returns, last deferred first. The two Line Framers and the Line Writer are started before
`cmd.Start`, so they run, and can panic, on every path from there on. -/
def runCommand (env : Env) : Launched :=
  match env.stdoutPipe with
  | some e => ⟨Outcome.returned 0 (some e), [Call.StdoutPipe]⟩
  | none =>
  match env.stderrPipe with
  | some e => ⟨Outcome.returned 0 (some e),
      [Call.StdoutPipe, Call.StderrPipe, Call.release Resource.stdout]⟩
  | none =>
  match env.stdinPipe with
  | some e => ⟨Outcome.returned 0 (some e), [Call.StdoutPipe, Call.StderrPipe, Call.StdinPipe,
      Call.release Resource.stderr, Call.release Resource.stdout]⟩
  | none =>
  let setup := [Call.StdoutPipe, Call.StderrPipe, Call.StdinPipe, Call.ioPipe, Call.ioPipe,
    Call.go Goroutine.readLinesStdout, Call.go Goroutine.readLinesStderr,
    Call.go Goroutine.writeLines,
    Call.go Goroutine.copyStdout, Call.go Goroutine.copyStderr, Call.go Goroutine.copyStdin,
    Call.cmdStart]
  let deferred := [Call.release Resource.stderrReader, Call.release Resource.stdoutReader,
    Call.release Resource.stderrPipeWriter, Call.release Resource.stderrPipeReader,
    Call.release Resource.stdoutPipeWriter, Call.release Resource.stdoutPipeReader,
    Call.release Resource.stdin, Call.release Resource.stderr, Call.release Resource.stdout]
  let panics := framerPanic env.stdoutFramer ++ framerPanic env.stderrFramer ++ writerPanic env
  match env.start with
  | some e => ⟨Outcome.finish panics 0 (some e), setup ++ deferred⟩
  | none =>
  let r := waitCommand env.wait
  ⟨Outcome.finish panics r.1 r.2,
    setup ++ [Call.go Goroutine.passSignals, Call.waitCommand] ++ deferred⟩

/-- The function `runCommandPTY` of `run.go`. The child is started first: when `pty.Start`
fails no goroutine has been started; afterwards the Line Framer and the Line Writer run,
and can panic, until the function returns. -/
def runCommandPTY (env : Env) : Launched :=
  match env.start with
  | some e => ⟨Outcome.returned 0 (some e), [Call.ioPipe, Call.ptyStart,
      Call.release Resource.pipeWriter, Call.release Resource.pipeReader]⟩
  | none =>
  let panics := framerPanic env.ptyFramer ++ writerPanic env
  let r := waitCommand env.wait
  ⟨Outcome.finish panics r.1 r.2, [Call.ioPipe, Call.ptyStart,
    Call.go Goroutine.readLinesPty, Call.go Goroutine.writeLines,
    Call.go Goroutine.copyStdout, Call.go Goroutine.copyStdin,
    Call.go Goroutine.passSignals, Call.waitCommand,
    Call.release Resource.ptyReader, Call.release Resource.ptyStream,
    Call.release Resource.pipeWriter, Call.release Resource.pipeReader]⟩

/-- The constant `outputBuffer`. -/
def outputBuffer : Nat := 200
/-- The constant `inputBuffer`. -/
def inputBuffer : Nat := 20
/-- The constant `signalBuffer`. -/
def signalBuffer : Nat := 20
/-- The constant `stateChangeBuffer`. -/
def stateChangeBuffer : Nat := 20

/-- The deferred calls of `RunWithStateMachine`, in the order they run when it returns:
`signal.Stop(signals)`, `close(signals)`, `close(stateChanges)`, `close(inputLines)`. The
channel `outputLines` has no deferred close. -/
def deferredCalls : List Call :=
  [Call.signalStop, Call.closeChan Bus.signals, Call.closeChan Bus.stateChanges,
   Call.closeChan Bus.inputLines]

/-- The function `RunWithStateMachine` of `run.go`: the buses are made, the Automaton
Bridge and the automaton are started, the launcher chosen by `withPty` runs, and on
return the deferred calls stop the signal notifications and close `signals`,
`stateChanges` and `inputLines`, in this order; `outputLines` is not closed. It ends as the
launcher does. What the Automaton Bridge and the automaton do around the deferred closes is
followed step by step in `World`. -/
def RunWithStateMachine (env : Env) (withPty : Bool) : Launched :=
  let r := if withPty then runCommandPTY env else runCommand env
  ⟨r.outcome,
    [Call.makeChan Bus.outputLines outputBuffer, Call.makeChan Bus.inputLines inputBuffer,
     Call.makeChan Bus.stateChanges stateChangeBuffer, Call.makeChan Bus.signals signalBuffer,
     Call.signalNotify,
     Call.go Goroutine.passStateChanges, Call.go Goroutine.statemachineRun]
    ++ r.calls ++ deferredCalls⟩

/-- Whether an effect starts a goroutine. -/
def Call.isGo : Call → Bool
  | Call.go _ => true
  | _ => false

/-! ## Shutdown: the goroutines around the closable buses, step by step -/

/-- A Go channel: the values buffered, the capacity, and whether it has been closed. -/
structure Chan (α : Type) where
  buf : List α
  capacity : Nat
  closed : Bool
  deriving DecidableEq, Repr

/-- Where the goroutine `passStateChanges` stands: at the receive of its `range` loop, at
the send `inputLines <- stateChange.Command`, returned, or stopped by the panic of a send on
a closed channel. -/
inductive BridgePc where
  | receiving : BridgePc
  | sending (command : GoString) : BridgePc
  | returned : BridgePc
  | panicked : BridgePc
  deriving DecidableEq, Repr

/-- The state of a run once the launcher has started the child: the three buses with a
deferred close, whether the signal notifications are on, the deferred calls the Supervisor
still has to run, where the Automaton Bridge stands, what the Line Writer and the Signal
Relay have received, and the buses on which a send happened after the close (each such send
is a panic of the sending goroutine). -/
structure World where
  stateChanges : Chan StateChange
  inputLines : Chan GoString
  signals : Chan Nat
  notifying : Bool
  supervisor : List Call
  bridge : BridgePc
  written : List GoString
  relayed : List Nat
  panics : List Bus
  deriving DecidableEq, Repr

/-- The state when the child has been started: empty open buses, notifications on, every
deferred call of `RunWithStateMachine` pending. -/
def World.initial : World :=
  { stateChanges := ⟨[], stateChangeBuffer, false⟩
    inputLines := ⟨[], inputBuffer, false⟩
    signals := ⟨[], signalBuffer, false⟩
    notifying := true
    supervisor := deferredCalls
    bridge := BridgePc.receiving
    written := []
    relayed := []
    panics := [] }

/-- The steps the scheduler can choose from: the Supervisor runs its next deferred call
(the child has exited and `RunWithStateMachine` returns); `passStateChanges` takes a step;
the automaton sends an event on `stateChanges`; the runtime notifies a signal on `signals`;
`writeLines` receives a line; `passSignals` receives a signal. -/
inductive Action where
  | supervisor : Action
  | bridge : Action
  | automatonEmit (e : StateChange) : Action
  | osSignal (s : Nat) : Action
  | writer : Action
  | relay : Action
  deriving DecidableEq, Repr

/-- One step of the run. A step that would block leaves the state unchanged. A send on a
closed channel panics; a receive on a closed channel still delivers what is buffered. -/
def World.step (w : World) : Action → World
  | Action.supervisor =>
    match w.supervisor with
    | [] => w
    | Call.signalStop :: rest => { w with notifying := false, supervisor := rest }
    | Call.closeChan Bus.signals :: rest =>
      { w with signals := { w.signals with closed := true }, supervisor := rest }
    | Call.closeChan Bus.stateChanges :: rest =>
      { w with stateChanges := { w.stateChanges with closed := true }, supervisor := rest }
    | Call.closeChan Bus.inputLines :: rest =>
      { w with inputLines := { w.inputLines with closed := true }, supervisor := rest }
    | _ :: rest => { w with supervisor := rest }
  | Action.bridge =>
    match w.bridge with
    | BridgePc.receiving =>
      match w.stateChanges.buf with
      | stateChange :: rest =>
        { w with stateChanges := { w.stateChanges with buf := rest },
                 bridge := BridgePc.sending stateChange.Command }
      | [] => if w.stateChanges.closed then { w with bridge := BridgePc.returned } else w
    | BridgePc.sending command =>
      if w.inputLines.closed then
        { w with bridge := BridgePc.panicked, panics := w.panics ++ [Bus.inputLines] }
      else if w.inputLines.buf.length < w.inputLines.capacity then
        { w with inputLines := { w.inputLines with buf := w.inputLines.buf ++ [command] },
                 bridge := BridgePc.receiving }
      else w
    | BridgePc.returned => w
    | BridgePc.panicked => w
  | Action.automatonEmit e =>
    if w.stateChanges.closed then { w with panics := w.panics ++ [Bus.stateChanges] }
    else if w.stateChanges.buf.length < w.stateChanges.capacity then
      { w with stateChanges := { w.stateChanges with buf := w.stateChanges.buf ++ [e] } }
    else w
  | Action.osSignal s =>
    if w.notifying then
      if w.signals.closed then { w with panics := w.panics ++ [Bus.signals] }
      else if w.signals.buf.length < w.signals.capacity then
        { w with signals := { w.signals with buf := w.signals.buf ++ [s] } }
      else w
    else w
  | Action.writer =>
    match w.inputLines.buf with
    | line :: rest =>
      { w with inputLines := { w.inputLines with buf := rest }, written := w.written ++ [line] }
    | [] => w
  | Action.relay =>
    match w.signals.buf with
    | s :: rest =>
      { w with signals := { w.signals with buf := rest }, relayed := w.relayed ++ [s] }
    | [] => w

/-- A run under a schedule: the steps taken one after the other. -/
def World.run (w : World) : List Action → World
  | [] => w
  | a :: rest => (w.step a).run rest

/-- What holds of the bus `signals` all along a run: no send after its close has happened,
the notifications are off once it is closed, and the Supervisor is somewhere in its deferred
calls, with the notifications off as soon as the first of them has run. -/
def World.signalsSafe (w : World) : Prop :=
  Bus.signals ∉ w.panics ∧ (w.signals.closed = true → w.notifying = false) ∧
  ((w.supervisor = deferredCalls ∧ w.signals.closed = false) ∨
   (w.notifying = false ∧ (w.supervisor = deferredCalls.drop 1 ∨
      w.supervisor = deferredCalls.drop 2 ∨ w.supervisor = deferredCalls.drop 3 ∨
      w.supervisor = [])))

/-! ## Lemmas on UTF-8 decoding -/

/-- The values the table `first` takes. -/
theorem first_cases (a : Nat) :
    first a = 0xF0 ∨ first a = 0xF1 ∨ first a = 0x02 ∨ first a = 0x13 ∨ first a = 0x03 ∨
    first a = 0x23 ∨ first a = 0x34 ∨ first a = 0x04 ∨ first a = 0x44 := by
  unfold first
  split_ifs <;> simp

/-- An ASCII byte decodes to itself with width 1. -/
theorem decode_ascii (c : Nat) (rest : GoString) (hc : c < 0x80) :
    DecodeRuneInString (c :: rest) = (c, 1) := by
  have hx : first c = 0xF0 := by unfold first; simp [hc]
  simp [DecodeRuneInString, hx]

/-- The width of the first rune of a non-empty string is at least 1 and at most its
length. -/
theorem decode_width (s : GoString) (hs : s ≠ []) :
    1 ≤ (DecodeRuneInString s).2 ∧ (DecodeRuneInString s).2 ≤ s.length := by
  cases s with
  | nil => exact absurd rfl hs
  | cons a t =>
    rcases first_cases a with hx | hx | hx | hx | hx | hx | hx | hx | hx
    · simp [DecodeRuneInString, hx]
    · simp [DecodeRuneInString, hx]
    all_goals
      simp [DecodeRuneInString, hx, acceptRanges]
      split_ifs <;> dsimp only <;> omega

/-- Appending bytes that start with an ASCII byte does not change the first rune of a
non-empty string: an ASCII byte is never taken for a continuation byte. -/
theorem decode_append_ascii (p : GoString) (hp : p ≠ []) (v : Nat) (hv : v < 0x80)
    (q : GoString) : DecodeRuneInString (p ++ v :: q) = DecodeRuneInString p := by
  match p, hp with
  | [a], _ =>
    rcases first_cases a with hx | hx | hx | hx | hx | hx | hx | hx | hx <;>
      simp [DecodeRuneInString, hx, acceptRanges] <;> omega
  | [a, b], _ =>
    rcases first_cases a with hx | hx | hx | hx | hx | hx | hx | hx | hx <;>
      simp [DecodeRuneInString, hx, acceptRanges] <;> omega
  | [a, b, c], _ =>
    rcases first_cases a with hx | hx | hx | hx | hx | hx | hx | hx | hx <;>
      simp [DecodeRuneInString, hx, acceptRanges] <;> omega
  | a :: b :: c :: d :: t, _ =>
    rcases first_cases a with hx | hx | hx | hx | hx | hx | hx | hx | hx <;>
      simp [DecodeRuneInString, hx, acceptRanges] <;>
      split_ifs <;> first | rfl | omega

/-- A string whose first rune is a space keeps that first rune when bytes are appended:
a space is never the result of a truncated encoding. -/
theorem decode_append_space (p q : GoString) (h : IsSpace (DecodeRuneInString p).1 = true) :
    DecodeRuneInString (p ++ q) = DecodeRuneInString p := by
  match p with
  | [] => simp [DecodeRuneInString, IsSpace, RuneError] at h
  | [a] =>
    rcases first_cases a with hx | hx | hx | hx | hx | hx | hx | hx | hx <;>
      simp [DecodeRuneInString, hx, acceptRanges, IsSpace, RuneError] at h ⊢
  | [a, b] =>
    rcases first_cases a with hx | hx | hx | hx | hx | hx | hx | hx | hx <;>
      simp [DecodeRuneInString, hx, acceptRanges, IsSpace, RuneError] at h ⊢
  | [a, b, c] =>
    rcases first_cases a with hx | hx | hx | hx | hx | hx | hx | hx | hx <;>
      simp [DecodeRuneInString, hx, acceptRanges, IsSpace, RuneError] at h ⊢
  | a :: b :: c :: d :: t =>
    rcases first_cases a with hx | hx | hx | hx | hx | hx | hx | hx | hx <;>
      simp [DecodeRuneInString, hx, acceptRanges] <;>
      split_ifs <;> first | rfl | omega

/-- The backward scan of `DecodeLastRuneInString` never moves forward. -/
theorem decodeLastStart_le (s : GoString) (lim : Int) (k : Nat) (start : Int) :
    decodeLastStart s lim k start ≤ start := by
  induction k generalizing start with
  | zero => simp [decodeLastStart]
  | succ k ih =>
    unfold decodeLastStart
    split_ifs
    · exact le_refl _
    · have := ih (start - 1)
      omega
    · exact le_refl _

/-- The width of the last rune of a non-empty string is at least 1. -/
theorem decodeLast_width (s : GoString) (hs : s ≠ []) : 1 ≤ (DecodeLastRuneInString s).2 := by
  have hlen : 0 < s.length := List.length_pos.mpr hs
  unfold DecodeLastRuneInString
  simp only
  rw [if_neg (by omega)]
  by_cases h1 : s.getD (s.length - 1) 0 < RuneSelf
  · rw [if_pos h1]
  rw [if_neg h1]
  generalize (if (s.length : Int) - 4 < 0 then (0 : Int) else (s.length : Int) - 4) = lim
  have hle := decodeLastStart_le s lim 4 ((s.length : Int) - 1 - 1)
  generalize decodeLastStart s lim 4 ((s.length : Int) - 1 - 1) = st at hle
  split_ifs with h2 h3 h4
  · exact le_refl _
  · simp only [Int.toNat_zero] at h3 ⊢; omega
  · exact le_refl _
  · omega

/-- The last rune of a string that ends in an ASCII byte is that byte. -/
theorem decodeLast_append_ascii (s : GoString) (v : Nat) (hv : v < 0x80) :
    DecodeLastRuneInString (s ++ [v]) = (v, 1) := by
  simp [DecodeLastRuneInString, RuneSelf, hv]

/-! ## Lemmas on `strings.TrimSpace` -/

/-- A suffix that starts inside the string is not empty. -/
theorem drop_ne_nil_of_lt (s : GoString) (j : Nat) (hj : j < s.length) : s.drop j ≠ [] := by
  intro h
  have h1 := congrArg List.length h
  rw [List.length_drop, List.length_nil] at h1
  omega

/-- A prefix of positive length of a string that is long enough is not empty. -/
theorem take_ne_nil_of_pos (s : GoString) (i : Nat) (h0 : 0 < i) (hi : i ≤ s.length) :
    s.take i ≠ [] := by
  intro h
  have h1 := congrArg List.length h
  rw [List.length_take, List.length_nil] at h1
  omega

/-- What `indexFunc` finds is the offset of a rune on which `f` has the wanted value. -/
theorem indexFuncLoop_some (f : Nat → Bool) (truth : Bool) (fuel : Nat) :
    ∀ (i : Nat) (s : GoString) (j : Nat), indexFuncLoop f truth fuel i s = some j →
      (f (DecodeRuneInString (s.drop j)).1 == truth) = true ∧ j < s.length := by
  induction fuel with
  | zero => intro i s j h; simp [indexFuncLoop] at h
  | succ k ih =>
    intro i s j h
    unfold indexFuncLoop at h
    simp only at h
    split_ifs at h with h1 h2
    · injection h with h
      subst h
      exact ⟨h2, by omega⟩
    · exact ih _ _ _ h

/-- The forward scan over `s ++ "\n"` is the scan over `s`: the final newline is a space. -/
theorem indexFuncLoop_append_nl (s : GoString) (fuel : Nat) :
    ∀ i : Nat, s.length - i ≤ fuel → i ≤ s.length →
      indexFuncLoop IsSpace false (fuel + 1) i (s ++ [0x0A]) =
        indexFuncLoop IsSpace false fuel i s := by
  induction fuel with
  | zero =>
    intro i h1 h2
    have hi : i = s.length := by omega
    subst hi
    simp [indexFuncLoop, decode_ascii, IsSpace]
  | succ k ih =>
    intro i h1 h2
    by_cases hi : i = s.length
    · subst hi
      simp [indexFuncLoop, decode_ascii, IsSpace]
    · have hlt : i < s.length := by omega
      have hne : s.drop i ≠ [] := drop_ne_nil_of_lt s i hlt
      have hw := decode_width (s.drop i) hne
      rw [List.length_drop] at hw
      have hc1 : ¬ (s.length + 1 ≤ i) := by omega
      have hc2 : ¬ (s.length ≤ i) := by omega
      have hdec : DecodeRuneInString (List.drop i (s ++ [0x0A])) = DecodeRuneInString (s.drop i) := by
        rw [List.drop_append_of_le_length h2]
        exact decode_append_ascii _ hne _ (by norm_num) []
      rw [indexFuncLoop]
      conv_rhs => rw [indexFuncLoop]
      simp only [List.length_append, List.length_singleton, if_neg hc1, if_neg hc2, hdec]
      split_ifs
      · rfl
      · exact ih _ (by omega) (by omega)

/-- Left trimming of `s ++ "\n"`: nothing when `s` is all spaces, otherwise the left
trimming of `s` followed by the newline. -/
theorem TrimLeftFunc_append_nl (s : GoString) :
    TrimLeftFunc (s ++ [0x0A]) IsSpace =
      if TrimLeftFunc s IsSpace = [] then [] else TrimLeftFunc s IsSpace ++ [0x0A] := by
  unfold TrimLeftFunc indexFunc
  rw [List.length_append, List.length_singleton,
    indexFuncLoop_append_nl s s.length 0 (by omega) (by omega)]
  cases h : indexFuncLoop IsSpace false s.length 0 s with
  | none => simp
  | some j =>
    have hj := (indexFuncLoop_some _ _ _ _ _ _ h).2
    have hne : s.drop j ≠ [] := drop_ne_nil_of_lt s j hj
    simp only [if_neg hne]
    exact List.drop_append_of_le_length (by omega)

/-- The backward scan below offset `i` only reads `s[0:i]`. -/
theorem lastIndexFuncLoop_append (f : Nat → Bool) (truth : Bool) (y z : GoString)
    (fuel : Nat) : ∀ i : Nat, i ≤ y.length →
      lastIndexFuncLoop f truth fuel i (y ++ z) = lastIndexFuncLoop f truth fuel i y := by
  induction fuel with
  | zero => intro i _; rfl
  | succ k ih =>
    intro i hi
    rw [lastIndexFuncLoop]
    conv_rhs => rw [lastIndexFuncLoop]
    simp only [List.take_append_of_le_length hi]
    split_ifs
    · rfl
    · rfl
    · exact ih _ (by omega)

/-- What `lastIndexFunc` finds lies below the offset the scan started from. -/
theorem lastIndexFuncLoop_lt (f : Nat → Bool) (truth : Bool) (s : GoString) (fuel : Nat) :
    ∀ i j : Nat, i ≤ s.length → lastIndexFuncLoop f truth fuel i s = some j → j < i := by
  induction fuel with
  | zero => intro i j _ h; simp [lastIndexFuncLoop] at h
  | succ k ih =>
    intro i j hi h
    unfold lastIndexFuncLoop at h
    simp only at h
    split_ifs at h with h0 h1
    · have := decodeLast_width _ (take_ne_nil_of_pos s i (by omega) hi)
      injection h with h
      omega
    · have := ih _ j (by omega) h
      omega

/-- Right trimming returns a prefix of its argument. -/
theorem TrimRightFunc_take (t : GoString) (f : Nat → Bool) :
    ∃ n, TrimRightFunc t f = t.take n := by
  unfold TrimRightFunc
  split
  · split_ifs
    · exact ⟨_, rfl⟩
    · exact ⟨_, rfl⟩
  · exact ⟨0, rfl⟩

/-- Right trimming of `y ++ "\n"` is right trimming of `y`. -/
theorem TrimRightFunc_append_nl (y : GoString) :
    TrimRightFunc (y ++ [0x0A]) IsSpace = TrimRightFunc y IsSpace := by
  have hidx : lastIndexFunc (y ++ [0x0A]) IsSpace false = lastIndexFunc y IsSpace false := by
    unfold lastIndexFunc
    rw [List.length_append, List.length_singleton, lastIndexFuncLoop]
    have htake : List.take (y.length + 1) (y ++ [0x0A]) = y ++ [0x0A] :=
      List.take_of_length_le (by simp)
    simp only [Nat.add_one_ne_zero, if_false, htake,
      decodeLast_append_ascii y 0x0A (by norm_num), Nat.add_sub_cancel]
    have hsp : (IsSpace 0x0A == false) = false := by decide
    rw [hsp]
    simp only [Bool.false_eq_true, if_false]
    exact lastIndexFuncLoop_append _ _ y [0x0A] _ _ (le_refl _)
  unfold TrimRightFunc
  rw [hidx]
  cases h : lastIndexFunc y IsSpace false with
  | none => simp
  | some j =>
    have hj : j < y.length := lastIndexFuncLoop_lt _ _ _ _ _ _ (le_refl _) h
    have hne : y.drop j ≠ [] := drop_ne_nil_of_lt y j hj
    have hw := decode_width (y.drop j) hne
    rw [List.length_drop] at hw
    have hdec : DecodeRuneInString (List.drop j (y ++ [0x0A])) = DecodeRuneInString (y.drop j) := by
      rw [List.drop_append_of_le_length (by omega)]
      exact decode_append_ascii _ hne _ (by norm_num) []
    have hget : (y ++ [0x0A]).getD j 0 = y.getD j 0 := List.getD_append _ _ _ _ hj
    have ht1 : List.take (j + (DecodeRuneInString (y.drop j)).2) (y ++ [0x0A])
        = List.take (j + (DecodeRuneInString (y.drop j)).2) y :=
      List.take_append_of_le_length (by omega)
    have ht2 : List.take (j + 1) (y ++ [0x0A]) = List.take (j + 1) y :=
      List.take_append_of_le_length (by omega)
    simp only [hdec, hget, ht1, ht2]

/-- The second loop of `TrimSpace` below offset `k` only reads `t[0:k]`. -/
theorem trimSpaceStop_append (t z : GoString) (k : Nat) (hk : k ≤ t.length) :
    trimSpaceStop (t ++ z) k = trimSpaceStop t k := by
  induction k with
  | zero => simp [trimSpaceStop]
  | succ k ih =>
    have hget : (t ++ z).getD k 0 = t.getD k 0 := List.getD_append _ _ _ _ (by omega)
    have htake : List.take (k + 1) (t ++ z) = List.take (k + 1) t :=
      List.take_append_of_le_length hk
    rw [trimSpaceStop]
    conv_rhs => rw [trimSpaceStop]
    simp only [hget, htake, ih (by omega)]

/-- The second loop of `TrimSpace` returns a prefix of its argument. -/
theorem trimSpaceStop_take (t : GoString) (k : Nat) : ∃ n, trimSpaceStop t k = t.take n := by
  induction k with
  | zero => exact ⟨0, rfl⟩
  | succ k ih =>
    rw [trimSpaceStop]
    split_ifs
    · obtain ⟨n, hn⟩ := TrimRightFunc_take (t.take (k + 1)) IsSpace
      exact ⟨min n (k + 1), by rw [hn, List.take_take]⟩
    · exact ⟨_, rfl⟩
    · exact ih

/-- Trimming `s ++ "\n"` gives the same as trimming `s`: the newline that `ReadString`
leaves at the end of a line is trimmed away and changes nothing else. -/
theorem TrimSpace_append_nl (s : GoString) : TrimSpace (s ++ [0x0A]) = TrimSpace s := by
  induction s with
  | nil => decide
  | cons c rest ih =>
    rw [List.cons_append, TrimSpace]
    conv_rhs => rw [TrimSpace]
    split_ifs with h1 h2
    · unfold TrimFunc
      rw [← List.cons_append, TrimLeftFunc_append_nl]
      split_ifs with h3
      · rw [h3]
      · exact TrimRightFunc_append_nl _
    · rw [List.length_append, List.length_singleton, trimSpaceStop]
      have hget : (c :: (rest ++ [0x0A])).getD (rest.length + 1) 0 = 0x0A := by
        rw [← List.cons_append]
        rw [List.getD_append_right _ _ _ _ (by simp)]
        simp
      simp only [hget]
      rw [if_neg (by decide), if_neg (by decide), ← List.cons_append]
      exact trimSpaceStop_append _ _ _ (by simp)
    · exact ih

/-- The first rune of a non-empty result of `TrimSpace` is not a space. -/
theorem TrimSpace_first_rune (s : GoString) (h : TrimSpace s ≠ []) :
    IsSpace (DecodeRuneInString (TrimSpace s)).1 = false := by
  induction s with
  | nil => exact absurd rfl h
  | cons c rest ih =>
    rw [TrimSpace] at h ⊢
    split_ifs at h ⊢ with h1 h2
    · -- the Unicode path: a prefix of the left-trimmed string
      unfold TrimFunc at h ⊢
      obtain ⟨n, hn⟩ := TrimRightFunc_take (TrimLeftFunc (c :: rest) IsSpace) IsSpace
      rw [hn] at h ⊢
      have hleft : IsSpace (DecodeRuneInString (TrimLeftFunc (c :: rest) IsSpace)).1 = false := by
        unfold TrimLeftFunc at h ⊢
        cases hi : indexFunc (c :: rest) IsSpace false with
        | none => rw [hi] at h; simp at h
        | some j =>
          have := (indexFuncLoop_some _ _ _ _ _ _ hi).1
          simpa using this
      by_contra hsp
      have hsp1 : IsSpace (DecodeRuneInString
          (List.take n (TrimLeftFunc (c :: rest) IsSpace))).1 = true := by
        simpa using hsp
      have happ := decode_append_space _ (List.drop n (TrimLeftFunc (c :: rest) IsSpace)) hsp1
      rw [List.take_append_drop] at happ
      rw [happ, hsp1] at hleft
      exact Bool.noConfusion hleft
    · -- the ASCII path: a prefix that starts with a byte that is no space
      obtain ⟨n, hn⟩ := trimSpaceStop_take (c :: rest) (rest.length + 1)
      rw [hn] at h ⊢
      cases n with
      | zero => simp at h
      | succ n =>
        have hc : c < 0x80 := by
          simp only [RuneSelf] at h1; omega
        rw [List.take_succ_cons, decode_ascii _ _ hc]
        have h3 : ¬ (c = 0x09 ∨ c = 0x0A ∨ c = 0x0B ∨ c = 0x0C ∨ c = 0x0D ∨ c = 0x20) := by
          intro hsp
          simp [asciiSpace, hsp] at h2
        have h4 : c ≤ 0xFF := by omega
        unfold IsSpace
        rw [if_pos h4]
        simp
        omega
    · exact ih h

/-- A non-empty result of `TrimSpace` is no whitespace-only line. -/
theorem TrimSpace_not_whitespaceOnly (s : GoString) (h : TrimSpace s ≠ []) :
    ¬ whitespaceOnly (TrimSpace s) := by
  have hr := TrimSpace_first_rune s h
  unfold whitespaceOnly indexFunc
  cases hl : TrimSpace s with
  | nil => exact absurd hl h
  | cons a t =>
    rw [hl] at hr
    rw [List.length_cons, indexFuncLoop]
    simp [hr]

/-! ## The bounds of the loops are enough

The loops of the standard library are written with a bound on the number of rounds; the
lemmas below show that a larger bound gives the same result, so the bound is never what ends
a loop. -/

/-- One more round changes nothing in the backward scan of `DecodeLastRuneInString` once the
bound exceeds the distance to `lim` by two; from `start = len(s) - 2` with
`lim = max(len(s) - UTFMax, 0)` the bound `UTFMax` does. -/
theorem decodeLastStart_fuel (s : GoString) (lim : Int) (k : Nat) :
    ∀ start : Int, start - lim + 2 ≤ (k : Int) →
      decodeLastStart s lim (k + 1) start = decodeLastStart s lim k start := by
  induction k with
  | zero =>
    intro start h
    rw [decodeLastStart, decodeLastStart, if_neg (by omega)]
  | succ k ih =>
    intro start h
    rw [decodeLastStart]
    conv_rhs => rw [decodeLastStart]
    split_ifs
    · rfl
    · exact ih _ (by push_cast at h; omega)
    · rfl

/-- One more round changes nothing in `indexFunc` once the bound covers the bytes left. -/
theorem indexFuncLoop_fuel (f : Nat → Bool) (truth : Bool) (s : GoString) (fuel : Nat) :
    ∀ i : Nat, s.length - i ≤ fuel →
      indexFuncLoop f truth (fuel + 1) i s = indexFuncLoop f truth fuel i s := by
  induction fuel with
  | zero =>
    intro i h
    rw [indexFuncLoop, indexFuncLoop, if_pos (by omega)]
  | succ k ih =>
    intro i h
    rw [indexFuncLoop]
    conv_rhs => rw [indexFuncLoop]
    by_cases hi : s.length ≤ i
    · rw [if_pos hi, if_pos hi]
    · rw [if_neg hi, if_neg hi]
      have hw := (decode_width (s.drop i) (drop_ne_nil_of_lt s i (by omega))).1
      simp only
      split_ifs
      · rfl
      · exact ih _ (by omega)

/-- One more round changes nothing in `lastIndexFunc` once the bound covers the bytes
left. -/
theorem lastIndexFuncLoop_fuel (f : Nat → Bool) (truth : Bool) (s : GoString) (fuel : Nat) :
    ∀ i : Nat, i ≤ fuel → i ≤ s.length →
      lastIndexFuncLoop f truth (fuel + 1) i s = lastIndexFuncLoop f truth fuel i s := by
  induction fuel with
  | zero =>
    intro i h _
    rw [lastIndexFuncLoop, lastIndexFuncLoop, if_pos (by omega)]
  | succ k ih =>
    intro i h hlen
    rw [lastIndexFuncLoop]
    conv_rhs => rw [lastIndexFuncLoop]
    by_cases hi : i = 0
    · rw [if_pos hi, if_pos hi]
    · rw [if_neg hi, if_neg hi]
      have hw := decodeLast_width _ (take_ne_nil_of_pos s i (by omega) hlen)
      simp only
      split_ifs
      · rfl
      · exact ih _ (by omega) (by omega)

/-! ## Lemmas on the Line Framer -/

/-- A stream without newline is a single segment, and `ReadString` finds no delimiter. -/
theorem splitDelim_none (s : GoString) (h : splitDelim 0x0A s = none) :
    s.splitOn 0x0A = [s] := by
  induction s with
  | nil => rfl
  | cons c rest ih =>
    unfold splitDelim at h
    split_ifs at h with hc
    cases hr : splitDelim 0x0A rest with
    | some lr => rw [hr] at h; simp at h
    | none =>
      have hc1 : (c == 0x0A) = false := by simpa using hc
      rw [List.splitOn, List.splitOnP_cons]
      simp only [hc1, Bool.false_eq_true, if_false]
      have := ih hr
      rw [List.splitOn] at this
      rw [this]
      rfl

/-- When `ReadString` finds a delimiter, the line it returns is the first segment of the
stream with its newline, and the reader is left with the other segments. -/
theorem splitDelim_some (s line rest : GoString) (h : splitDelim 0x0A s = some (line, rest)) :
    ∃ seg, line = seg ++ [0x0A] ∧ s.splitOn 0x0A = seg :: rest.splitOn 0x0A ∧
      rest.length < s.length := by
  induction s generalizing line with
  | nil => simp [splitDelim] at h
  | cons c t ih =>
    unfold splitDelim at h
    split_ifs at h with hc
    · injection h with h
      injection h with h1 h2
      subst h1 h2 hc
      refine ⟨[], rfl, ?_, by simp⟩
      rw [List.splitOn, List.splitOnP_cons]
      simp only [beq_self_eq_true, if_true]
      rfl
    · cases hr : splitDelim 0x0A t with
      | none => rw [hr] at h; simp at h
      | some lr =>
        obtain ⟨l1, r1⟩ := lr
        rw [hr] at h
        simp only [Option.some.injEq, Prod.mk.injEq] at h
        obtain ⟨h1, h2⟩ := h
        subst h1 h2
        obtain ⟨seg, hseg, hsplit, hlen⟩ := ih l1 hr
        have hc1 : (c == 0x0A) = false := by simpa using hc
        refine ⟨c :: seg, by rw [hseg]; rfl, ?_, by simp; omega⟩
        rw [List.splitOn] at hsplit ⊢
        rw [List.splitOnP_cons]
        simp only [hc1, Bool.false_eq_true, if_false]
        rw [hsplit]
        rfl

/-- The segments of `p ++ "\n" ++ t`, when `t` holds no newline: those of `p`, then `t`. -/
theorem splitOn_append_nl (p t : GoString) (ht : 0x0A ∉ t) :
    (p ++ 0x0A :: t).splitOn 0x0A = p.splitOn 0x0A ++ [t] := by
  have hsingle : t.splitOn 0x0A = [t] := by
    rw [List.splitOn]
    apply List.splitOnP_eq_single
    intro x hx hp
    have : x = 0x0A := by simpa using hp
    exact ht (this ▸ hx)
  induction p with
  | nil =>
    rw [List.nil_append, List.splitOn, List.splitOnP_cons]
    simp only [beq_self_eq_true, if_true]
    rw [List.splitOn] at hsingle
    rw [hsingle]
    rfl
  | cons c p ih =>
    rw [List.splitOn] at ih ⊢
    rw [List.cons_append, List.splitOnP_cons, ih]
    conv_rhs => rw [List.splitOn, List.splitOnP_cons]
    split_ifs
    · rfl
    · cases hsp : List.splitOnP (fun x => x == 0x0A) p with
      | nil => exact absurd hsp (List.splitOnP_ne_nil _ _)
      | cons a as => rw [List.splitOn] at *; simp [hsp, List.modifyHead]

/-- The lines `readLines` sends on a stream that ends with `io.EOF`: the trimmed, non-empty
segments of the stream, the last segment (what follows the last newline) left out. The
loop returns, within the rounds it is given. -/
theorem readLinesLoop_eof (fuel : Nat) : ∀ data : GoString, data.length < fuel →
    readLinesLoop fuel ⟨data, GoError.EOF⟩ =
      ⟨(((data.splitOn 0x0A).dropLast).map TrimSpace).filter (fun l => l ≠ []),
        Exit.returned⟩ := by
  induction fuel with
  | zero => intro data h; omega
  | succ k ih =>
    intro data hlen
    rw [readLinesLoop, ReadString]
    cases hs : splitDelim 0x0A data with
    | none =>
      simp [splitDelim_none data hs]
    | some lr =>
      obtain ⟨line, rest⟩ := lr
      obtain ⟨seg, hseg, hsplit, hlt⟩ := splitDelim_some data line rest hs
      have hne : rest.splitOn 0x0A ≠ [] := by
        rw [List.splitOn]; exact List.splitOnP_ne_nil _ _
      have hih := ih rest (by omega)
      simp only [hsplit, hseg, TrimSpace_append_nl, List.dropLast_cons_of_ne_nil hne,
        List.map_cons, List.filter_cons, hih]
      by_cases ht : TrimSpace seg = []
      · simp [ht]
      · simp [ht]

/-- On a stream that ends with `io.EOF`, `readLines` returns after sending the trimmed,
non-empty segments of the stream, the segment after the last newline left out. -/
theorem readLines_eof (data : GoString) :
    readLines ⟨data, GoError.EOF⟩ =
      ⟨(((data.splitOn 0x0A).dropLast).map TrimSpace).filter (fun l => l ≠ []),
        Exit.returned⟩ :=
  readLinesLoop_eof (data.length + 1) data (Nat.lt_succ_self _)

/-- For a stream of newline-terminated lines the segment after the last newline is empty,
so leaving it out changes nothing. -/
theorem framedLines_terminated (stream : GoString)
    (h : stream = [] ∨ stream.getLast? = some 0x0A) :
    framedLines stream =
      (((stream.splitOn 0x0A).dropLast).map TrimSpace).filter (fun l => l ≠ []) := by
  rcases h with h | h
  · subst h; decide
  · obtain ⟨p, rfl⟩ := List.getLast?_eq_some_iff.1 h
    have hsp := splitOn_append_nl p [] (by simp)
    unfold framedLines
    rw [hsp, List.dropLast_concat, List.map_append, List.filter_append]
    have : List.filter (fun l => decide (l ≠ [])) (List.map TrimSpace [([] : GoString)]) = [] := by
      decide
    rw [this, List.append_nil]

/-- How `readLines` ends: it returns when the stream ends with `io.EOF` and panics with
the error of the stream otherwise, within the rounds it is given. -/
theorem readLinesLoop_exit (fuel : Nat) : ∀ (data : GoString) (err : GoError),
    data.length < fuel →
    (readLinesLoop fuel ⟨data, err⟩).exit =
      if err = GoError.EOF then Exit.returned else Exit.panicked err := by
  induction fuel with
  | zero => intro data err h; omega
  | succ k ih =>
    intro data err hlen
    rw [readLinesLoop, ReadString]
    cases hs : splitDelim 0x0A data with
    | none =>
      by_cases he : err = GoError.EOF
      · simp [he]
      · simp [he]
    | some lr =>
      obtain ⟨line, rest⟩ := lr
      obtain ⟨seg, hseg, hsplit, hlt⟩ := splitDelim_some data line rest hs
      have hih := ih rest err (by omega)
      simp only [reduceCtorEq, if_false]
      by_cases ht : TrimSpace line = []
      · simp [ht, hih]
      · simp [ht, hih]

/-- A Line Framer goroutine that has read its reader to the end panics exactly when the
reader ends with an error other than `io.EOF`. -/
theorem framerPanic_some (data : GoString) (err : GoError) :
    framerPanic (some ⟨data, err⟩) = if err = GoError.EOF then [] else [err] := by
  have h := readLinesLoop_exit (data.length + 1) data err (Nat.lt_succ_self _)
  unfold framerPanic readLines
  simp only
  rw [h]
  by_cases he : err = GoError.EOF
  · simp [he]
  · simp [he]

/-! ## Lemmas on the Line Writer and the Signal Relay -/

/-- While every write succeeds, `writeLines` writes each line with its terminator and
returns when the channel is closed. -/
theorem writeLinesLoop_all_ok (behaviour : Nat → WriteResult) :
    ∀ (lines : List GoString) (w : Sink),
      (∀ k, w.calls ≤ k → k < w.calls + lines.length → behaviour k = WriteResult.ok) →
      writeLinesLoop behaviour w lines =
        (⟨w.written ++ (lines.map (fun l => l ++ [0x0A])).flatten, w.calls + lines.length⟩,
          Exit.returned) := by
  intro lines
  induction lines with
  | nil => intro w _; simp [writeLinesLoop]
  | cons line rest ih =>
    intro w h
    have h0 : behaviour w.calls = WriteResult.ok := h _ (le_refl _) (by simp)
    rw [writeLinesLoop, WriteString, h0]
    simp only [reduceCtorEq, if_false]
    rw [ih]
    · simp [Nat.add_assoc, Nat.add_comm 1]
    · intro k hk1 hk2
      simp only [List.length_cons] at hk2 ⊢
      simp only at hk1 hk2
      exact h k (by omega) (by simp only [List.length_cons]; omega)

/-- The first failing write ends `writeLines`: the lines before it are written in full,
of the failing line the sink takes what it takes, nothing after it is written; the
goroutine returns when the error is `io.EOF` and panics with the error otherwise. -/
theorem writeLinesLoop_first_failure (behaviour : Nat → WriteResult) (n : Nat) (err : GoError) :
    ∀ (before : List GoString) (line : GoString) (after : List GoString) (w : Sink),
      (∀ k, w.calls ≤ k → k < w.calls + before.length → behaviour k = WriteResult.ok) →
      behaviour (w.calls + before.length) = WriteResult.fail n err →
      writeLinesLoop behaviour w (before ++ line :: after) =
        (⟨w.written ++ (before.map (fun l => l ++ [0x0A])).flatten ++ (line ++ [0x0A]).take n,
            w.calls + before.length + 1⟩,
          if err = GoError.EOF then Exit.returned else Exit.panicked err) := by
  intro before
  induction before with
  | nil =>
    intro line after w _ hfail
    simp only [List.length_nil, Nat.add_zero] at hfail
    rw [List.nil_append, writeLinesLoop, WriteString, hfail]
    by_cases he : err = GoError.EOF
    · simp [he]
    · simp [he]
  | cons b rest ih =>
    intro line after w hok hfail
    have h0 : behaviour w.calls = WriteResult.ok := hok _ (le_refl _) (by simp)
    rw [List.cons_append, writeLinesLoop, WriteString, h0]
    simp only [reduceCtorEq, if_false]
    rw [ih]
    · simp [Nat.add_assoc, Nat.add_comm 1]
    · intro k hk1 hk2
      simp only [List.length_cons] at hk2 ⊢
      simp only at hk1 hk2
      exact hok k (by omega) (by simp only [List.length_cons]; omega)
    · simp only [List.length_cons] at hfail
      simp only
      rw [show w.calls + 1 + rest.length = w.calls + (rest.length + 1) by omega]
      exact hfail

/-- The Automaton Bridge forwards the `Command` of every event, in order. -/
theorem passStateChanges_eq_map (events : List StateChange) :
    passStateChanges events = events.map (fun e => e.Command) := by
  induction events with
  | nil => rfl
  | cons e rest ih => simp [passStateChanges, ih]

/-- The Signal Relay always ends by returning. -/
theorem passSignalsLoop_returns (Signal : Nat → Nat → Option GoError) :
    ∀ (signals : List Nat) (k : Nat), (passSignalsLoop Signal k signals).exit = Exit.returned := by
  intro signals
  induction signals with
  | nil => intro k; rfl
  | cons s rest ih =>
    intro k
    rw [passSignalsLoop]
    cases h : Signal k s with
    | none => simpa using ih (k + 1)
    | some e => rfl

/-- While every delivery succeeds, the Signal Relay hands over every signal. -/
theorem passSignalsLoop_all_ok (Signal : Nat → Nat → Option GoError) :
    ∀ (signals : List Nat) (k : Nat),
      (∀ i, i < signals.length → Signal (k + i) (signals.getD i 0) = none) →
      (passSignalsLoop Signal k signals).delivered = signals := by
  intro signals
  induction signals with
  | nil => intro k _; rfl
  | cons s rest ih =>
    intro k h
    have h0 : Signal k s = none := by simpa using h 0 (by simp)
    rw [passSignalsLoop, h0]
    simp only
    rw [ih (k + 1)]
    intro i hi
    have := h (i + 1) (by simpa using hi)
    simpa [Nat.add_assoc, Nat.add_comm 1] using this

/-- The first failing delivery is the last signal the Signal Relay hands over. -/
theorem passSignalsLoop_first_failure (Signal : Nat → Nat → Option GoError) :
    ∀ (signals : List Nat) (k j : Nat), j < signals.length →
      (∀ i, i < j → Signal (k + i) (signals.getD i 0) = none) →
      Signal (k + j) (signals.getD j 0) ≠ none →
      (passSignalsLoop Signal k signals).delivered = signals.take (j + 1) := by
  intro signals
  induction signals with
  | nil => intro k j hj; simp at hj
  | cons s rest ih =>
    intro k j hj hok hfail
    cases j with
    | zero =>
      rw [passSignalsLoop]
      cases h : Signal k s with
      | none => simp [h] at hfail
      | some e => simp
    | succ j =>
      have h0 : Signal k s = none := by simpa using hok 0 (by omega)
      rw [passSignalsLoop, h0]
      simp only [List.take_succ_cons]
      rw [ih (k + 1) j (by simpa using hj)]
      · intro i hi
        have := hok (i + 1) (by omega)
        simpa [Nat.add_assoc, Nat.add_comm 1] using this
      · simpa [Nat.add_assoc, Nat.add_comm 1] using hfail

/-! ## Lemmas on the shutdown -/

/-- Every step keeps `signalsSafe`. -/
theorem World.signalsSafe_step (w : World) (a : Action) (h : w.signalsSafe) :
    (w.step a).signalsSafe := by
  obtain ⟨h1, h2, h3⟩ := h
  cases a with
  | supervisor =>
    rcases h3 with ⟨h3, h4⟩ | ⟨h3, h4 | h4 | h4 | h4⟩ <;>
      simp [World.step, World.signalsSafe, h3, h4, deferredCalls, h1] at h2 ⊢
  | bridge =>
    unfold World.step
    cases hb : w.bridge with
    | receiving =>
      simp only
      cases hbuf : w.stateChanges.buf with
      | nil =>
        simp only
        split_ifs
        · exact ⟨h1, h2, h3⟩
        · exact ⟨h1, h2, h3⟩
      | cons e rest => exact ⟨h1, h2, h3⟩
    | sending command =>
      simp only
      split_ifs
      · exact ⟨by simpa using h1, h2, h3⟩
      · exact ⟨h1, h2, h3⟩
      · exact ⟨h1, h2, h3⟩
    | returned => exact ⟨h1, h2, h3⟩
    | panicked => exact ⟨h1, h2, h3⟩
  | automatonEmit e =>
    unfold World.step
    simp only
    split_ifs
    · exact ⟨by simpa using h1, h2, h3⟩
    · exact ⟨h1, h2, h3⟩
    · exact ⟨h1, h2, h3⟩
  | osSignal s =>
    unfold World.step
    simp only
    split_ifs with hn hc hlen
    · rw [h2 hc] at hn
      exact absurd hn (by decide)
    · refine ⟨h1, ?_, ?_⟩
      · intro hcl; exact absurd hcl hc
      · rcases h3 with ⟨h3, h4⟩ | ⟨h3, _⟩
        · exact Or.inl ⟨h3, h4⟩
        · rw [h3] at hn
          exact absurd hn (by decide)
    · exact ⟨h1, h2, h3⟩
    · exact ⟨h1, h2, h3⟩
  | writer =>
    unfold World.step
    simp only
    cases hbuf : w.inputLines.buf with
    | nil => exact ⟨h1, h2, h3⟩
    | cons e rest => exact ⟨h1, h2, h3⟩
  | relay =>
    unfold World.step
    simp only
    cases hbuf : w.signals.buf with
    | nil => exact ⟨h1, h2, h3⟩
    | cons e rest => exact ⟨h1, h2, h3⟩

/-- Under every schedule the bus `signals` is never sent to after its close: the deferred
`signal.Stop` runs before the deferred `close(signals)`. -/
theorem World.signals_never_sent_after_close (schedule : List Action) :
    Bus.signals ∉ (World.initial.run schedule).panics := by
  have hrun : ∀ (sched : List Action) (w : World), w.signalsSafe → (w.run sched).signalsSafe := by
    intro sched
    induction sched with
    | nil => intro w h; exact h
    | cons a rest ih => intro w h; exact ih _ (World.signalsSafe_step w a h)
  have hinit : World.initial.signalsSafe := by
    refine ⟨by simp [World.initial], by simp [World.initial], Or.inl ⟨rfl, rfl⟩⟩
  exact (hrun schedule _ hinit).1

/-! ## Exit-status decoding: the claims on `waitCommand` -/

/-- C3: a child that exits normally with status `N`, `0 ≤ N < 256`, makes `waitCommand`
return `exit = N` and a nil error; `cmd.Wait` returns nil for `N = 0` and an
`*exec.ExitError` carrying the wait status of `exit(N)` otherwise. -/
theorem waitCommand_exit_status (N : Nat) (hN : N < 256) :
    (cmdWait (exitedStatus N) = if N = 0 then none
        else some (GoError.ExitError (some (exitedStatus N)))) ∧
    ExitStatus (exitedStatus N) = (N : Int) ∧
    waitCommand (cmdWait (exitedStatus N)) = ((N : Int), none) := by
  have hmod : N % 256 = N := Nat.mod_eq_of_lt hN
  have hes : ExitStatus (exitedStatus N) = (N : Int) := by
    simp only [ExitStatus, Exited, exitedStatus, hmod]
    have h1 : (N * 256) % 2 ^ 32 % 128 = 0 := by omega
    have h3 : (N * 256) % 2 ^ 32 / 256 % 256 = N := by omega
    rw [h1, h3]
    simp
  refine ⟨?_, hes, ?_⟩
  · by_cases h0 : N = 0
    · subst h0; simp [cmdWait, hes]
    · have : (N : Int) ≠ 0 := by exact_mod_cast h0
      simp [cmdWait, hes, h0, this]
  · by_cases h0 : N = 0
    · subst h0; simp [cmdWait, hes, waitCommand]
    · have : (N : Int) ≠ 0 := by exact_mod_cast h0
      simp [cmdWait, hes, this, waitCommand]

/-- Witness of C3 at exit status 3. -/
theorem waitCommand_exit_status_witness :
    waitCommand (cmdWait (exitedStatus 3)) = ((3 : Int), none) :=
  (waitCommand_exit_status 3 (by decide)).2.2

/-- C5: `waitCommand` returns a non-nil error exactly when `cmd.Wait` failed with an error
that is not an `*exec.ExitError` carrying a `syscall.WaitStatus`; that error is then the
one `cmd.Wait` returned and `exit` is 0; in every other case the error is nil. -/
theorem waitCommand_error_xor_exit (waitResult : Option GoError) :
    ((waitCommand waitResult).2 ≠ none ↔
        ∃ e, waitResult = some e ∧ carriesWaitStatus e = false) ∧
    ((waitCommand waitResult).2 ≠ none →
        (waitCommand waitResult).2 = waitResult ∧ (waitCommand waitResult).1 = 0) ∧
    ((¬ ∃ e, waitResult = some e ∧ carriesWaitStatus e = false) →
        (waitCommand waitResult).2 = none) := by
  cases waitResult with
  | none => simp [waitCommand]
  | some e =>
    cases e with
    | ExitError sys =>
      cases sys with
      | none => simp [waitCommand, carriesWaitStatus]
      | some w => simp [waitCommand, carriesWaitStatus]
    | EOF => simp [waitCommand, carriesWaitStatus]
    | EPIPE => simp [waitCommand, carriesWaitStatus]
    | ErrClosed => simp [waitCommand, carriesWaitStatus]
    | other msg => simp [waitCommand, carriesWaitStatus]

/-- Witness of C5: a `cmd.Wait` that fails with "exec: not started" gives that error back
with exit 0, and a wait status gives no error. -/
theorem waitCommand_error_xor_exit_witness :
    ((waitCommand (some (GoError.other "exec: not started"))).2 ≠ none ∧
      (waitCommand (some (GoError.other "exec: not started"))).2
        = some (GoError.other "exec: not started") ∧
      (waitCommand (some (GoError.other "exec: not started"))).1 = 0) ∧
    (waitCommand (some (GoError.ExitError (some (exitedStatus 2))))).2 = none :=
  ⟨⟨by decide,
    ((waitCommand_error_xor_exit (some (GoError.other "exec: not started"))).2.1
      (by decide)).1,
    ((waitCommand_error_xor_exit (some (GoError.other "exec: not started"))).2.1
      (by decide)).2⟩,
   (waitCommand_error_xor_exit (some (GoError.ExitError (some (exitedStatus 2))))).2.2
     (by simp [carriesWaitStatus])⟩

/-- C6: a child killed by signal `s` (wait status "signaled by `s`", core flag set or
not) makes `waitCommand` return a nil error and the exit status decoded by
`WaitStatus.ExitStatus()`, which is `-1` whatever the signal. -/
theorem waitCommand_signaled (s : Nat) (core : Bool) (hs : 1 ≤ s ∧ s < 127) :
    Signaled (signaledStatus s core) = true ∧
    cmdWait (signaledStatus s core) = some (GoError.ExitError (some (signaledStatus s core))) ∧
    waitCommand (cmdWait (signaledStatus s core))
      = (ExitStatus (signaledStatus s core), none) ∧
    ExitStatus (signaledStatus s core) = -1 := by
  obtain ⟨h1, h2⟩ := hs
  have hmod : (signaledStatus s core) % 2 ^ 32 % 128 = s := by
    cases core <;> simp [signaledStatus] <;> omega
  have hex : Exited (signaledStatus s core) = false := by
    simp [Exited, hmod]; omega
  have hes : ExitStatus (signaledStatus s core) = -1 := by
    simp [ExitStatus, hex]
  refine ⟨?_, ?_, ?_, hes⟩
  · simp [Signaled, hmod]; omega
  · simp [cmdWait, hes]
  · simp [cmdWait, hes, waitCommand]

/-- Witness of C6 at SIGKILL (9) without core dump. -/
theorem waitCommand_signaled_witness :
    waitCommand (cmdWait (signaledStatus 9 false)) = (ExitStatus (signaledStatus 9 false), none) ∧
    ExitStatus (signaledStatus 9 false) = -1 :=
  ⟨(waitCommand_signaled 9 false (by decide)).2.2.1,
   (waitCommand_signaled 9 false (by decide)).2.2.2⟩

/-! ## The Line Framer: the claims on `readLines` -/

/-- C1: on a byte stream made of zero or more newline-terminated lines followed by EOF,
`readLines` returns after sending exactly the segments of the stream split at each `'\n'`,
each trimmed with `strings.TrimSpace`, the empty ones discarded, in order; no line it sends
is empty or whitespace-only. -/
theorem readLines_sends_trimmed_lines (stream : GoString)
    (h : stream = [] ∨ stream.getLast? = some 0x0A) :
    readLines ⟨stream, GoError.EOF⟩ = ⟨framedLines stream, Exit.returned⟩ ∧
    ∀ l ∈ (readLines ⟨stream, GoError.EOF⟩).sent, l ≠ [] ∧ ¬ whitespaceOnly l := by
  refine ⟨by rw [readLines_eof, framedLines_terminated stream h], ?_⟩
  intro l hl
  rw [readLines_eof] at hl
  simp only [List.mem_filter, List.mem_map, decide_eq_true_eq] at hl
  obtain ⟨⟨seg, _, hseg⟩, hne⟩ := hl
  subst hseg
  exact ⟨hne, TrimSpace_not_whitespaceOnly seg hne⟩

/-- Witness of C1 on the stream `" a \n\nb\n"`, whose lines are `"a"` and `"b"`. -/
theorem readLines_sends_trimmed_lines_witness :
    ([0x20, 0x61, 0x20, 0x0A, 0x0A, 0x62, 0x0A] = [] ∨
      List.getLast? [0x20, 0x61, 0x20, 0x0A, 0x0A, 0x62, 0x0A] = some 0x0A) ∧
    readLines ⟨[0x20, 0x61, 0x20, 0x0A, 0x0A, 0x62, 0x0A], GoError.EOF⟩
      = ⟨framedLines [0x20, 0x61, 0x20, 0x0A, 0x0A, 0x62, 0x0A], Exit.returned⟩ ∧
    framedLines [0x20, 0x61, 0x20, 0x0A, 0x0A, 0x62, 0x0A] = [[0x61], [0x62]] :=
  ⟨by decide,
   (readLines_sends_trimmed_lines [0x20, 0x61, 0x20, 0x0A, 0x0A, 0x62, 0x0A] (by decide)).1,
   by decide⟩

/-- C10: when the stream ends, at EOF, with a segment `tail` that no `'\n'` terminates,
`readLines` does not send that segment: it sends exactly the lines of the longest
newline-terminated prefix `pre`, so the trimmed `tail`, when it is not empty, is missing from
what the specification's splitting of the whole stream yields; this happens for some
stream. -/
theorem readLines_drops_unterminated_tail (pre tail : GoString)
    (hpre : pre = [] ∨ pre.getLast? = some 0x0A) (hnl : 0x0A ∉ tail) :
    readLines ⟨pre ++ tail, GoError.EOF⟩ = readLines ⟨pre, GoError.EOF⟩ ∧
    readLines ⟨pre ++ tail, GoError.EOF⟩ = ⟨framedLines pre, Exit.returned⟩ ∧
    framedLines (pre ++ tail) = (readLines ⟨pre ++ tail, GoError.EOF⟩).sent ++
      (if TrimSpace tail = [] then [] else [TrimSpace tail]) ∧
    (∃ p t : GoString, (p = [] ∨ p.getLast? = some 0x0A) ∧ 0x0A ∉ t ∧ TrimSpace t ≠ [] ∧
      TrimSpace t ∉ (readLines ⟨p ++ t, GoError.EOF⟩).sent) := by
  have hsingle : tail.splitOn 0x0A = [tail] := by
    rw [List.splitOn]
    apply List.splitOnP_eq_single
    intro x hx hp
    have : x = 0x0A := by simpa using hp
    exact hnl (this ▸ hx)
  have hdrop : ((pre ++ tail).splitOn 0x0A).dropLast = (pre.splitOn 0x0A).dropLast ∧
      (pre ++ tail).splitOn 0x0A = (pre.splitOn 0x0A).dropLast ++ [tail] := by
    rcases hpre with h | h
    · subst h
      rw [List.nil_append, hsingle]
      exact ⟨rfl, rfl⟩
    · obtain ⟨p, rfl⟩ := List.getLast?_eq_some_iff.1 h
      rw [List.append_assoc, List.singleton_append, splitOn_append_nl p tail hnl,
        splitOn_append_nl p [] (by simp), List.dropLast_concat, List.dropLast_concat]
      exact ⟨rfl, rfl⟩
  have hrun : readLines ⟨pre ++ tail, GoError.EOF⟩ = ⟨framedLines pre, Exit.returned⟩ := by
    rw [readLines_eof, hdrop.1, framedLines_terminated pre hpre]
  refine ⟨?_, hrun, ?_, ⟨[0x61, 0x0A], [0x62], by decide, by decide, by decide, by decide⟩⟩
  · rw [hrun, readLines_eof, framedLines_terminated pre hpre]
  · rw [hrun]
    simp only
    rw [framedLines_terminated pre hpre]
    unfold framedLines
    rw [hdrop.2, List.map_append, List.filter_append]
    congr 1
    by_cases ht : TrimSpace tail = []
    · simp [ht]
    · simp [ht]

/-- Witness of C10 on the stream `"a\nb"`: only `"a"` is sent, `"b"` is lost. -/
theorem readLines_drops_unterminated_tail_witness :
    (([0x61, 0x0A] : GoString) = [] ∨ List.getLast? ([0x61, 0x0A] : GoString) = some 0x0A) ∧
    ([0x62] : GoString) ≠ [] ∧ 0x0A ∉ ([0x62] : GoString) ∧
    readLines ⟨[0x61, 0x0A] ++ [0x62], GoError.EOF⟩ = ⟨framedLines [0x61, 0x0A], Exit.returned⟩ ∧
    framedLines [0x61, 0x0A] = [[0x61]] ∧
    framedLines ([0x61, 0x0A] ++ [0x62]) = [[0x61], [0x62]] :=
  ⟨by decide, by decide, by decide,
   (readLines_drops_unterminated_tail [0x61, 0x0A] [0x62] (by decide) (by decide)).2.1,
   by decide, by decide⟩

/-! ## The Line Writer, the Automaton Bridge and the Signal Relay: the claims -/

/-- C2: for every sequence of state-change events delivered by the state-change bus, when
every write to the sink succeeds, `passStateChanges` feeding `writeLines` writes to the sink
exactly the `Command` of each event followed by one `'\n'`, once, unmodified, in order, with
one write per event, and `writeLines` returns. -/
theorem commands_written_in_order (events : List StateChange) (behaviour : Nat → WriteResult)
    (hok : ∀ k, k < events.length → behaviour k = WriteResult.ok) :
    writeLines behaviour (passStateChanges events) =
      (⟨(events.map (fun e => e.Command ++ [0x0A])).flatten, events.length⟩,
        Exit.returned) := by
  rw [writeLines, writeLinesLoop_all_ok, passStateChanges_eq_map]
  · simp [List.map_map, Function.comp_def]
  · intro k _ hk
    rw [passStateChanges_eq_map] at hk
    exact hok k (by simpa using hk)

/-- Witness of C2 on the events with commands `"GO"` and `"ls"`: the sink receives
`"GO\nls\n"`. -/
theorem commands_written_in_order_witness :
    (∀ k, k < [StateChange.mk [0x47, 0x4F], StateChange.mk [0x6C, 0x73]].length →
      (fun _ => WriteResult.ok) k = WriteResult.ok) ∧
    writeLines (fun _ => WriteResult.ok)
        (passStateChanges [StateChange.mk [0x47, 0x4F], StateChange.mk [0x6C, 0x73]]) =
      (⟨[0x47, 0x4F, 0x0A, 0x6C, 0x73, 0x0A], 2⟩, Exit.returned) :=
  ⟨fun _ _ => rfl,
   commands_written_in_order [StateChange.mk [0x47, 0x4F], StateChange.mk [0x6C, 0x73]]
     (fun _ => WriteResult.ok) (fun _ _ => rfl)⟩

/-- C7, on the code: when the second write fails because the sink is gone, which a pipe
without reader reports as `EPIPE` and a closed file as `ErrClosed`, `writeLines` does not
end silently: it panics with that error. The first command has been written in full and the
third is not written. Only the error `io.EOF`, which no write to a pipe or a terminal
returns, makes it return. -/
theorem writeLines_closed_sink_panics :
    writeLines (fun k => if k = 1 then WriteResult.fail 0 GoError.EPIPE else WriteResult.ok)
        [[0x47, 0x4F], [0x6C, 0x73], [0x71]] =
      (⟨[0x47, 0x4F, 0x0A], 2⟩, Exit.panicked GoError.EPIPE) ∧
    writeLines (fun k => if k = 1 then WriteResult.fail 0 GoError.ErrClosed else WriteResult.ok)
        [[0x47, 0x4F], [0x6C, 0x73], [0x71]] =
      (⟨[0x47, 0x4F, 0x0A], 2⟩, Exit.panicked GoError.ErrClosed) ∧
    writeLines (fun k => if k = 1 then WriteResult.fail 0 GoError.EOF else WriteResult.ok)
        [[0x47, 0x4F], [0x6C, 0x73], [0x71]] =
      (⟨[0x47, 0x4F, 0x0A], 2⟩, Exit.returned) := by
  refine ⟨?_, ?_, ?_⟩ <;> decide

/-- C9: `passSignals` always returns, without panic; when no delivery fails it hands every
signal to the process, unmodified and in order; when the delivery number `j + 1` is the
first to fail it has handed over exactly the first `j + 1` signals and nothing after. -/
theorem passSignals_delivers_until_failure (Signal : Nat → Nat → Option GoError)
    (signals : List Nat) :
    (passSignals Signal signals).exit = Exit.returned ∧
    ((∀ i, i < signals.length → Signal i (signals.getD i 0) = none) →
      (passSignals Signal signals).delivered = signals) ∧
    (∀ j, j < signals.length →
      (∀ i, i < j → Signal i (signals.getD i 0) = none) →
      Signal j (signals.getD j 0) ≠ none →
      (passSignals Signal signals).delivered = signals.take (j + 1)) := by
  refine ⟨passSignalsLoop_returns _ _ _, ?_, ?_⟩
  · intro h
    exact passSignalsLoop_all_ok Signal signals 0 (by simpa using h)
  · intro j hj hok hfail
    exact passSignalsLoop_first_failure Signal signals 0 j hj (by simpa using hok)
      (by simpa using hfail)

/-- Witness of C9: of the signals SIGHUP, SIGINT, SIGTERM with a process that is gone at
the second delivery, SIGHUP and SIGINT are handed over and SIGTERM is not. -/
theorem passSignals_delivers_until_failure_witness :
    (1 < [1, 2, 15].length ∧
      (∀ i, i < 1 → (fun k _ => if k = 1 then some (GoError.other "os: process already finished")
          else none) i (List.getD [1, 2, 15] i 0) = none) ∧
      (fun k _ => if k = 1 then some (GoError.other "os: process already finished") else none)
        1 (List.getD [1, 2, 15] 1 0) ≠ none) ∧
    (passSignals (fun k _ => if k = 1 then some (GoError.other "os: process already finished")
        else none) [1, 2, 15]).delivered = [1, 2] :=
  ⟨⟨by decide, by intro i hi; have : i = 0 := by omega
                  subst this; rfl, by decide⟩,
   (passSignals_delivers_until_failure
      (fun k _ => if k = 1 then some (GoError.other "os: process already finished") else none)
      [1, 2, 15]).2.2 1 (by decide)
      (by intro i hi; have : i = 0 := by omega
          subst this; rfl)
      (by decide)⟩

/-! ## Startup and shutdown: the claims on the launchers and the Supervisor -/

/-- In Direct mode a failing pipe allocation makes `runCommand` return that error without
calling `cmd.Start` and without starting any goroutine, and `RunWithStateMachine` returns the
same error, the only goroutines of the run being the Automaton Bridge and the automaton. -/
theorem pipe_allocation_failure_returns (env : Env) (e : GoError)
    (h : env.stdoutPipe = some e ∨ (env.stdoutPipe = none ∧ env.stderrPipe = some e) ∨
        (env.stdoutPipe = none ∧ env.stderrPipe = none ∧ env.stdinPipe = some e)) :
    (runCommand env).outcome = Outcome.returned 0 (some e) ∧
    Call.cmdStart ∉ (runCommand env).calls ∧
    (∀ c ∈ (runCommand env).calls, c.isGo = false) ∧
    (RunWithStateMachine env false).outcome = Outcome.returned 0 (some e) ∧
    Call.cmdStart ∉ (RunWithStateMachine env false).calls ∧
    (∀ c ∈ (RunWithStateMachine env false).calls, c.isGo = true →
      c = Call.go Goroutine.passStateChanges ∨ c = Call.go Goroutine.statemachineRun) := by
  rcases h with h | ⟨h1, h2⟩ | ⟨h1, h2, h3⟩
  · simp [RunWithStateMachine, runCommand, h, deferredCalls, Call.isGo]
  · simp [RunWithStateMachine, runCommand, h1, h2, deferredCalls, Call.isGo]
  · simp [RunWithStateMachine, runCommand, h1, h2, h3, deferredCalls, Call.isGo]

/-- In Pty mode a failing `pty.Start` makes `runCommandPTY` and `RunWithStateMachine` return
that error; no goroutine of the launcher has been started, and neither `passSignals` nor
`waitCommand` is invoked. -/
theorem ptyStart_failure_returns (env : Env) (e : GoError) (h : env.start = some e) :
    (runCommandPTY env).outcome = Outcome.returned 0 (some e) ∧
    (∀ c ∈ (runCommandPTY env).calls, c.isGo = false) ∧
    (RunWithStateMachine env true).outcome = Outcome.returned 0 (some e) ∧
    Call.go Goroutine.passSignals ∉ (RunWithStateMachine env true).calls ∧
    Call.waitCommand ∉ (RunWithStateMachine env true).calls := by
  simp [RunWithStateMachine, runCommandPTY, h, deferredCalls, Call.isGo]

/-- In Direct mode a failing `cmd.Start` comes after the start of the Line Framers and of
the Line Writer: neither `passSignals` nor `waitCommand` is invoked, and the error is
returned exactly when none of these goroutines has panicked by then. -/
theorem cmdStart_failure_outcome (env : Env) (e : GoError)
    (h : env.stdoutPipe = none ∧ env.stderrPipe = none ∧ env.stdinPipe = none ∧
      env.start = some e) :
    (runCommand env).outcome =
      Outcome.finish
        (framerPanic env.stdoutFramer ++ framerPanic env.stderrFramer ++ writerPanic env)
        0 (some e) ∧
    (RunWithStateMachine env false).outcome = (runCommand env).outcome ∧
    Call.go Goroutine.readLinesStdout ∈ (runCommand env).calls ∧
    Call.go Goroutine.passSignals ∉ (RunWithStateMachine env false).calls ∧
    Call.waitCommand ∉ (RunWithStateMachine env false).calls := by
  obtain ⟨h1, h2, h3, h4⟩ := h
  simp [RunWithStateMachine, runCommand, h1, h2, h3, h4, deferredCalls]

/-- On the success paths too the launchers hand back the result of `waitCommand` only when
no goroutine has panicked: a Line Framer whose pipe `cmd.Wait` closes, or whose pty ends
with an input/output error once the child has exited, ends the process; with readers that
end in `io.EOF`, or still being read, the exit status is returned. -/
theorem launcher_success_paths :
    (runCommand (Env.mk none none none none (cmdWait (exitedStatus 3))
        (some ⟨[0x61, 0x0A], GoError.ErrClosed⟩) none none (fun _ => WriteResult.ok) [])).outcome
      = Outcome.crashed [GoError.ErrClosed] ∧
    (runCommand (Env.mk none none none none (cmdWait (exitedStatus 3))
        (some ⟨[0x61, 0x0A], GoError.EOF⟩) (some ⟨[], GoError.EOF⟩) none
        (fun _ => WriteResult.ok) [])).outcome
      = Outcome.returned 3 none ∧
    (runCommandPTY (Env.mk none none none none (cmdWait (exitedStatus 3)) none none
        (some ⟨[0x61, 0x0A], GoError.other "read /dev/ptmx: input/output error"⟩)
        (fun _ => WriteResult.ok) [])).outcome
      = Outcome.crashed [GoError.other "read /dev/ptmx: input/output error"] ∧
    (runCommandPTY (Env.mk none none none none (cmdWait (exitedStatus 3)) none none none
        (fun _ => WriteResult.ok) [])).outcome
      = Outcome.returned 3 none := by
  refine ⟨?_, ?_, ?_, ?_⟩ <;> decide

/-- C8, on the code: in Direct mode, when `cmd.Start` fails, the error is not always
returned. The Line Framers are started before `cmd.Start`; the failed start closes the
pipes, the read of `readLines(stdoutReader)` ends with "file already closed", which is not
`io.EOF`, and `readLines` panics, which ends the process before `runCommand` and
`RunWithStateMachine` hand the error back. When the framer has not reached that read, the
error is returned; and `runCommandPTY`, which starts the child before its goroutines, returns
the error of a failing `pty.Start`. -/
theorem cmdStart_failure_crashes :
    (readLines ⟨[], GoError.ErrClosed⟩).exit = Exit.panicked GoError.ErrClosed ∧
    (runCommand (Env.mk none none none (some (GoError.other "exec: no such file")) none
        (some ⟨[], GoError.ErrClosed⟩) none none (fun _ => WriteResult.ok) [])).outcome
      = Outcome.crashed [GoError.ErrClosed] ∧
    (RunWithStateMachine (Env.mk none none none (some (GoError.other "exec: no such file")) none
        (some ⟨[], GoError.ErrClosed⟩) none none (fun _ => WriteResult.ok) []) false).outcome
      = Outcome.crashed [GoError.ErrClosed] ∧
    (RunWithStateMachine (Env.mk none none none (some (GoError.other "exec: no such file")) none
        none none none (fun _ => WriteResult.ok) []) false).outcome
      = Outcome.returned 0 (some (GoError.other "exec: no such file")) ∧
    (RunWithStateMachine (Env.mk none none none (some (GoError.other "exec: no such file")) none
        (some ⟨[], GoError.ErrClosed⟩) none none (fun _ => WriteResult.ok) []) true).outcome
      = Outcome.returned 0 (some (GoError.other "exec: no such file")) := by
  refine ⟨?_, ?_, ?_, ?_, ?_⟩ <;> decide

/-- C4, on the code: a bus is sent to after it has been closed. The automaton emits the
command `"GO"`, the child exits and the Supervisor runs its four deferred calls, closing
`stateChanges` and `inputLines`; `passStateChanges` then receives the buffered event from
the closed `stateChanges` and sends its command on the closed `inputLines`, which panics.
An event emitted by the automaton after the return of the Supervisor is likewise a send on
the closed `stateChanges`. -/
theorem send_on_closed_inputLines :
    (World.initial.run [Action.automatonEmit ⟨[0x47, 0x4F]⟩, Action.supervisor,
        Action.supervisor, Action.supervisor, Action.supervisor,
        Action.bridge]).inputLines.closed = true ∧
    (World.initial.run [Action.automatonEmit ⟨[0x47, 0x4F]⟩, Action.supervisor,
        Action.supervisor, Action.supervisor, Action.supervisor,
        Action.bridge]).bridge = BridgePc.sending [0x47, 0x4F] ∧
    (World.initial.run [Action.automatonEmit ⟨[0x47, 0x4F]⟩, Action.supervisor,
        Action.supervisor, Action.supervisor, Action.supervisor,
        Action.bridge, Action.bridge]).bridge = BridgePc.panicked ∧
    (World.initial.run [Action.automatonEmit ⟨[0x47, 0x4F]⟩, Action.supervisor,
        Action.supervisor, Action.supervisor, Action.supervisor,
        Action.bridge, Action.bridge]).panics = [Bus.inputLines] ∧
    (World.initial.run [Action.supervisor, Action.supervisor, Action.supervisor,
        Action.supervisor, Action.automatonEmit ⟨[0x47, 0x4F]⟩]).panics
      = [Bus.stateChanges] := by
  refine ⟨?_, ?_, ?_, ?_, ?_⟩ <;> decide

end Shell
